import Mathlib

/-!
Verification development for a small vehicle-routing service consisting of
two components:

* a travel-matrix builder (`app/services/matrix_service.py`): resolves stop
  coordinates (geocoding address-only stops), caches matrices keyed by
  rounded coordinates, departure time and routing preference, batches
  provider calls into blocks of at most 100, and fills unreachable or
  missing entries with sentinel costs; and
* a routing engine (`app/services/routing_service.py`): an OR-Tools
  pickup-and-delivery model with a time dimension (slack 30, horizon 1440),
  a capacity dimension, same-vehicle pairing, cumulative-time precedence
  and the pickup-before-delivery path-order precedence that OR-Tools
  installs for registered pairs, and route extraction.

External effects (HTTP calls to the geocoder and the route-matrix provider,
and the OR-Tools search) are modelled as explicit function parameters; the
shared module-level cache is threaded as explicit state.  Python exceptions
(`HTTPException`) are modelled with `Except HErr`.
-/

namespace OrToolsTest

/-- Model of FastAPI `HTTPException`: a status code plus a detail string. -/
structure HErr where
  status : Nat
  detail : String
deriving DecidableEq, Repr

/-- Status code used by every upstream/provider failure raised in
`matrix_service.py` (`HTTPException(status_code=502, ...)`). -/
def upstreamStatus : Nat := 502

/-! ## Matrix service: provider elements and `_compute_block` -/

/-- One element of the route-matrix provider response, as consumed by
`_compute_block`: `originIndex`, `destinationIndex`, optional `condition`
(defaulting to `"ROUTE_EXISTS"` via `obj.get`), optional `duration` (whole
seconds; the code parses the `"...s"` string) and optional
`distanceMeters`.  Durations and distances are the non-negative quantities
of the provider contract. -/
structure RawElem where
  originIndex : Nat
  destinationIndex : Nat
  condition : Option String
  duration : Option Nat
  distanceMeters : Option Nat
deriving DecidableEq, Repr

/-- Python `int(round(a / b))` for non-negative integers: round to nearest,
ties to even (Python banker rounding). -/
def roundHalfToEven (a b : Nat) : Nat :=
  let q := a / b
  let r := a % b
  if 2 * r < b then q
  else if b < 2 * r then q + 1
  else if q % 2 = 0 then q else q + 1

/-- The test in `_compute_block`:
`cond == "ROUTE_EXISTS" and "duration" in obj and "distanceMeters" in obj`. -/
def isRouteOk (e : RawElem) : Bool :=
  (e.condition.getD "ROUTE_EXISTS" == "ROUTE_EXISTS")
    && e.duration.isSome && e.distanceMeters.isSome

/-- Minutes value stored for a provider element:
`int(round(secs / 60))` when the route exists, else the sentinel `10^6`. -/
def storedMinutes (e : RawElem) : Int :=
  if isRouteOk e then (roundHalfToEven (e.duration.getD 0) 60 : Nat) else 10 ^ 6

/-- Meters value stored for a provider element: `int(obj["distanceMeters"])`
when the route exists, else the sentinel `10^9`. -/
def storedMeters (e : RawElem) : Int :=
  if isRouteOk e then (e.distanceMeters.getD 0 : Nat) else 10 ^ 9

/-- Python list assignment `m[i][j] = v`: fails (IndexError) when an index
is out of range.  The failing case surfaces as a status-500 error at the
API boundary. -/
def setEntryE (m : List (List (Option Int))) (i j : Nat) (v : Int) :
    Except HErr (List (List (Option Int))) :=
  match m[i]? with
  | some row =>
      if j < row.length then .ok (m.set i (row.set j (some v)))
      else .error ⟨500, "IndexError"⟩
  | none => .error ⟨500, "IndexError"⟩

/-- Body of the element loop of `_compute_block`: store the minutes and
meters values of one response element. -/
def applyElem (acc : List (List (Option Int)) × List (List (Option Int)))
    (e : RawElem) :
    Except HErr (List (List (Option Int)) × List (List (Option Int))) := do
  let a ← setEntryE acc.1 e.originIndex e.destinationIndex (storedMinutes e)
  let b ← setEntryE acc.2 e.originIndex e.destinationIndex (storedMeters e)
  pure (a, b)

/-- `[[None] * len(destinations) for _ in range(len(origins))]`. -/
def initNone (nO nD : Nat) : List (List (Option Int)) :=
  List.replicate nO (List.replicate nD none)

/-- The fill-any-None pass of `_compute_block`: every entry still `None`
becomes the sentinel. -/
def fillNone (sent : Int) (m : List (List (Option Int))) : List (List Int) :=
  m.map (fun r => r.map (fun o => o.getD sent))

/-- `_compute_block`, starting from the parsed provider response elements
(the network call and response parsing are the provider model): write each
element into the `None`-initialised block, then replace remaining `None`
entries by the sentinels `10^6` minutes / `10^9` meters. -/
def computeBlock (els : List RawElem) (nO nD : Nat) :
    Except HErr (List (List Int) × List (List Int)) := do
  let ab ← els.foldlM applyElem (initNone nO nD, initNone nO nD)
  pure (fillNone (10 ^ 6) ab.1, fillNone (10 ^ 9) ab.2)

/-- The value the element loop leaves at cell `(i, j)`: the stored value of
the last response element addressing that cell, if any (later elements
overwrite earlier ones, mirroring the sequential loop). -/
def cellVal (f : RawElem → Int) (els : List RawElem) (i j : Nat) : Option Int :=
  els.foldl
    (fun acc e =>
      if e.originIndex = i ∧ e.destinationIndex = j then some (f e) else acc)
    none

/-- Row `i`, column `j` of a list-of-lists matrix, as an `Option`. -/
def get2 (m : List (List α)) (i j : Nat) : Option α :=
  m[i]?.bind (fun r => r[j]?)

/-- Matrix shape: `nr` rows, each of length `nc`. -/
def Shape (m : List (List α)) (nr nc : Nat) : Prop :=
  m.length = nr ∧ ∀ row ∈ m, row.length = nc

instance {α : Type} [DecidableEq α] (m : List (List α)) (nr nc : Nat) :
    Decidable (Shape m nr nc) := by
  unfold Shape; infer_instance

/-- Every entry of the matrix is non-negative. -/
def Nonneg (m : List (List Int)) : Prop :=
  ∀ row ∈ m, ∀ v ∈ row, 0 ≤ v

instance (m : List (List Int)) : Decidable (Nonneg m) := by
  unfold Nonneg; infer_instance

/-! ## Matrix service: chunking, merge, cache and `build_matrix` -/

/-- `MAX_BLOCK = 100`. -/
def MAX_BLOCK : Nat := 100

/-- `_chunks(lst, MAX_BLOCK)`: split a list into consecutive blocks of at
most `MAX_BLOCK` elements. -/
def chunks : List α → List (List α)
  | [] => []
  | x :: xs => ((x :: xs).take MAX_BLOCK) :: chunks ((x :: xs).drop MAX_BLOCK)
termination_by l => l.length
decreasing_by simp [MAX_BLOCK]; omega

/-- Total double assignment `m[i][j] = v` used in the merge loop of
`build_matrix`, where indices are always in range. -/
def set2 (m : List (List Int)) (i j : Nat) (v : Int) : List (List Int) :=
  match m[i]? with
  | some row => m.set i (row.set j v)
  | none => m

/-- Merge loop body of `build_matrix`: copy block `blk` into `m` at row
offset `bi` and column offset `bj`
(`minutes[base_i + i][base_j + j] = m_blk[i][j]`). -/
def writeBlock (m : List (List Int)) (blk : List (List Int)) (bi bj : Nat) :
    List (List Int) :=
  blk.enum.foldl
    (fun acc ir =>
      ir.2.enum.foldl (fun acc2 jv => set2 acc2 (bi + ir.1) (bj + jv.1) jv.2) acc)
    m

/-- A latitude/longitude pair.  Coordinates are modelled as rationals. -/
abbrev Coord : Type := ℚ × ℚ

/-- Round a rational to the nearest value with six decimal digits, ties to
even: Python `round(a, 6)`. -/
def roundHalfEvenRat (q : ℚ) : Int :=
  let f : Int := ⌊q⌋
  let r : ℚ := q - f
  if r < 1 / 2 then f else if 1 / 2 < r then f + 1
  else if f % 2 = 0 then f else f + 1

/-- `round(a, 6)` on a rational coordinate component. -/
def round6 (q : ℚ) : ℚ := (roundHalfEvenRat (q * 1000000) : ℚ) / 1000000

/-- Round both components of a coordinate: `(round(a, 6), round(b, 6))`. -/
def round6c (c : Coord) : Coord := (round6 c.1, round6 c.2)

/-- The content of the cache key built by `_cache_key`: rounded coordinate
list, departure time and routing preference.  The Python code hashes the
canonical JSON encoding of this signature with SHA-256; the model uses the
signature itself as the key (collision-free by construction). -/
structure CacheKey where
  coords : List Coord
  dep : Option String
  pref : String
deriving DecidableEq, Repr

/-- The dict returned by `build_matrix`:
`{"ids": ids, "minutes": minutes, "meters": meters}`. -/
structure MatrixRes where
  ids : List String
  minutes : List (List Int)
  meters : List (List Int)
deriving DecidableEq, Repr

/-- The module-level `_cache` dict, as an association list (new entries are
consed in front, so lookup sees the latest binding for a key, matching dict
update semantics). -/
abbrev Cache : Type := List (CacheKey × MatrixRes)

/-- Dict lookup `_cache[key]` / `key in _cache`. -/
def lookupCache (c : Cache) (k : CacheKey) : Option MatrixRes :=
  (c.find? (fun kv => decide (kv.1 = k))).map (fun kv => kv.2)

/-- One input point of `build_matrix`: `{id, lat?, lng?, address?}`. -/
structure Pt where
  id : String
  lat : Option ℚ
  lng : Option ℚ
  address : Option String
deriving DecidableEq, Repr

/-- The geocoder (`geocode`), abstracted as a function from the address to
either an error (non-OK status, no results, network failure) or a
coordinate.  It is deterministic within one model run. -/
abbrev Geocoder : Type := String → Except HErr Coord

/-- The route-matrix provider as seen by `_compute_block`: from the origin
block, destination block, departure time and routing preference to either
an upstream error (HTTP error, error payload, bad JSON) or the parsed
response elements. -/
abbrev Provider : Type :=
  List Coord → List Coord → Option String → String → Except HErr (List RawElem)

/-- Effects performed by one `build_matrix` call: the addresses passed to
the geocoder, in order, and the number of route-matrix provider calls. -/
structure BuildLog where
  geocoded : List String
  blockCalls : Nat
deriving DecidableEq, Repr

/-- The coordinate-resolution loop of `build_matrix`: use `(lat, lng)` when
both are present; otherwise fail when `require_coords` is set; otherwise
geocode a non-empty address; otherwise fail.  Returns the ids, the resolved
coordinates, and the list of geocoded addresses. -/
def resolvePoints (g : Geocoder) (requireCoords : Bool) :
    List Pt → Except HErr (List String × List Coord × List String)
  | [] => .ok ([], [], [])
  | p :: rest => do
      let cstep : Except HErr (Coord × List String) :=
        match p.lat, p.lng with
        | some la, some ln => .ok ((la, ln), [])
        | _, _ =>
          if requireCoords then
            .error ⟨400, "Point " ++ p.id ++ " missing lat/lng (geocoding disabled)"⟩
          else
            match p.address with
            | some a =>
              if a = "" then
                .error ⟨400, "Point " ++ p.id ++ " missing both (lat,lng) and address"⟩
              else (g a).map (fun c => (c, [a]))
            | none =>
              .error ⟨400, "Point " ++ p.id ++ " missing both (lat,lng) and address"⟩
      let cs ← cstep
      let r ← resolvePoints g requireCoords rest
      pure (p.id :: r.1, cs.1 :: r.2.1, cs.2 ++ r.2.2)

/-- The double block loop of `build_matrix`: for every
(origin-block, destination-block) pair call the provider, compute the block
matrices, and merge them at offset `(oi * MAX_BLOCK, di * MAX_BLOCK)`.
Also counts provider calls. -/
def buildBlocks (prov : Provider) (coords : List Coord) (dep : Option String)
    (pref : String) (m0 mt0 : List (List Int)) :
    Except HErr (List (List Int) × List (List Int) × Nat) :=
  (chunks coords).enum.foldlM
    (fun acc ob =>
      (chunks coords).enum.foldlM
        (fun acc2 db => do
          let els ← prov ob.2 db.2 dep pref
          let blk ← computeBlock els ob.2.length db.2.length
          pure (writeBlock acc2.1 blk.1 (ob.1 * MAX_BLOCK) (db.1 * MAX_BLOCK),
                writeBlock acc2.2.1 blk.2 (ob.1 * MAX_BLOCK) (db.1 * MAX_BLOCK),
                acc2.2.2 + 1))
        acc)
    (m0, mt0, 0)

/-- `build_matrix(points, departure_time, routing_preference, require_coords)`
with the geocoder, the provider and the module cache as explicit
parameters.  Returns the result dict, the updated cache, and the effect
log. -/
def buildMatrix (g : Geocoder) (prov : Provider) (cache : Cache)
    (points : List Pt) (dep : Option String) (pref : String)
    (requireCoords : Bool) :
    Except HErr (MatrixRes × Cache × BuildLog) := do
  let r ← resolvePoints g requireCoords points
  let ids := r.1
  let coords := r.2.1
  let gcalls := r.2.2
  let key : CacheKey := ⟨coords.map round6c, dep, pref⟩
  match lookupCache cache key with
  | some m => .ok (m, cache, ⟨gcalls, 0⟩)
  | none => do
      let n := coords.length
      let init : List (List Int) := List.replicate n (List.replicate n 0)
      let b ← buildBlocks prov coords dep pref init init
      let res : MatrixRes := ⟨ids, b.1, b.2.1⟩
      pure (res, (key, res) :: cache, ⟨gcalls, b.2.2⟩)

/-! ## Matrix service: response-text parsing (`_parse_route_matrix_text`) -/

/-- One item of a full-JSON-array response: either a normal response
element or a dict carrying an `"error"` key (whose detail string the code
reports). -/
inductive ArrItem where
  | elem (e : RawElem)
  | errObj (msg : String)
deriving DecidableEq, Repr

/-- One physical line of a non-array response text, after `strip()`:
opening/closing bracket, lone comma, blank line, XSSI guard line, a JSON
object line (with or without trailing comma) for a response element, a line
starting with `{"error"`, or an unparseable line. -/
inductive MLine where
  | lbrack
  | rbrack
  | comma
  | blank
  | xssi
  | objLine (e : RawElem) (trailing : Bool)
  | errLine (msg : String)
  | badLine (s : String)
deriving DecidableEq, Repr

/-- A provider response text, at the granularity `_parse_route_matrix_text`
inspects it: either text that starts with `[` and JSON-parses to an array
of items, or any other text viewed as its list of lines (NDJSON stream,
possibly with brackets and commas on separate lines). -/
inductive RespText where
  | arrayText (items : List ArrItem)
  | lineText (lines : List MLine)
deriving DecidableEq, Repr

/-- One iteration of the NDJSON line loop: skip brackets, commas, blanks
and the XSSI guard; fail on `error` payload lines and on bad JSON; append
the parsed object otherwise (the trailing comma is stripped before
parsing). -/
def lineStep (acc : List ArrItem) (l : MLine) : Except HErr (List ArrItem) :=
  match l with
  | .lbrack | .rbrack | .comma | .blank | .xssi => .ok acc
  | .errLine msg => .error ⟨502, msg⟩
  | .badLine s => .error ⟨502, "Bad JSON line from Routes API: " ++ s⟩
  | .objLine e _ => .ok (acc ++ [ArrItem.elem e])

/-- `_parse_route_matrix_text`: the array branch returns the parsed array
unless its first item is an error payload; the NDJSON branch walks the
lines with `lineStep`, collecting the parsed objects in order. -/
def parseRouteMatrixText : RespText → Except HErr (List ArrItem)
  | .arrayText items =>
      match items with
      | .errObj msg :: _ => .error ⟨502, msg⟩
      | _ => .ok items
  | .lineText lines => lines.foldlM lineStep []

/-- Encoding of a collection of normal response elements as a single JSON
array. -/
def encArray (els : List RawElem) : RespText :=
  .arrayText (els.map ArrItem.elem)

/-- Encoding of the same collection as an NDJSON stream: one object per
line, no trailing commas. -/
def encNDJSON (els : List RawElem) : RespText :=
  .lineText (els.map (fun e => MLine.objLine e false))

/-! ## Routing engine (`solve_routes`)

The OR-Tools search itself is third-party code; following the spec, it is
modelled as an abstract oracle that either produces a solution of the
constraint model that `solve_routes` builds, or nothing.  A solution
records, per vehicle, the visited nodes with the cumulative values of the
two dimensions; `feasibleSol` states exactly the constraints of the model
`solve_routes` builds: time transits `minutes[from][to]` with slack in
`[0, 30]` and horizon 1440, start cumuls fixed to zero, capacity cumuls in
`[0, vehicle_capacity]` stepping by the demand callback, every node served
exactly once, for every pair the same-vehicle constraint
`VehicleVar(p) == VehicleVar(d)` together with the precedence constraint
`Time.CumulVar(p) <= Time.CumulVar(d)`, and — because the pairs are
registered with `AddPickupAndDelivery` — the path-order precedence that
`CloseModelWithParameters` installs over the registered pairs
(`MakePathPrecedenceConstraint`): a path that visits both members of a
pair must visit the pickup before the delivery. -/

/-- `demand_callback`: scan the pair list; a pickup contributes `+1`, a
drop-off `-1`, anything else `0`. -/
def demandOf : List (Nat × Nat) → Nat → Int
  | [], _ => 0
  | (p, d) :: rest, node =>
      if node = p then 1 else if node = d then -1 else demandOf rest node

/-- Matrix access `minutes[a][b]` (in-range in every reachable use). -/
def matGet (m : List (List Int)) (a b : Nat) : Int :=
  (m[a]?.bind (fun r => r[b]?)).getD 0

/-- One visited position of a route: the underlying stop index and the
cumulative time and load assigned there. -/
structure RStop where
  node : Nat
  t : Int
  load : Int
deriving DecidableEq, Repr

/-- One vehicle route, from the vehicle start (depot) to the vehicle end
(return to depot), inclusive. -/
structure VRoute where
  stops : List RStop
deriving DecidableEq, Repr

/-- A candidate solution: one route per vehicle. -/
abbrev Sol : Type := List VRoute

/-- Dimension transitions along a route: the time cumul advances by the
transit `minutes[from][to]` plus a slack in `[0, 30]`, and the load cumul
advances by the demand of the departed node (unary callback on
`from_index`, zero slack). -/
def chainOk (mat : Nat → Nat → Int) (dem : Nat → Int) : List RStop → Bool
  | [] => true
  | [_] => true
  | a :: b :: rest =>
      decide (a.t + mat a.node b.node ≤ b.t)
        && decide (b.t ≤ a.t + mat a.node b.node + 30)
        && (b.load == a.load + dem a.node)
        && chainOk mat dem (b :: rest)

/-- Per-node dimension bounds: time cumul in `[0, 1440]` (the horizon),
load cumul in `[0, cap]` (the vehicle capacity). -/
def stopOk (cap : Int) (s : RStop) : Bool :=
  decide (0 ≤ s.t) && decide (s.t ≤ 1440)
    && decide (0 ≤ s.load) && decide (s.load ≤ cap)

/-- The stops of a route other than the vehicle start and end. -/
def interiorStops (r : VRoute) : List RStop :=
  (r.stops.drop 1).dropLast

/-- A well-formed route of the model: starts at the depot with both cumuls
zero, ends at the depot, satisfies the dimension bounds and transitions,
and visits only valid non-depot nodes in between. -/
def routeOk (mat : Nat → Nat → Int) (dem : Nat → Int) (n : Nat) (cap : Int)
    (depot : Nat) (r : VRoute) : Bool :=
  decide (2 ≤ r.stops.length)
    && ((r.stops.head?.map
          (fun s0 => (s0.node == depot) && (s0.t == 0) && (s0.load == 0))).getD false)
    && ((r.stops.getLast?.map (fun sl => sl.node == depot)).getD false)
    && r.stops.all (stopOk cap)
    && chainOk mat dem r.stops
    && (interiorStops r).all (fun s => (s.node != depot) && decide (s.node < n))

/-- All nodes served by some vehicle (excluding vehicle starts/ends). -/
def allInterior (sol : Sol) : List Nat :=
  sol.flatMap (fun r => (interiorStops r).map (fun s => s.node))

/-- Every non-depot node is served exactly once (no disjunctions in the
model: all nodes are mandatory). -/
def visitsOnce (n depot : Nat) (sol : Sol) : Bool :=
  (List.range n).all (fun x => (x == depot) || ((allInterior sol).count x == 1))

/-- Cumulative time at the stop serving node `x` on route `r`, if any. -/
def tOf (r : VRoute) (x : Nat) : Option Int :=
  (r.stops.find? (fun s => s.node == x)).map (fun s => s.t)

/-- Both halves of a transportation request on one route: the route serves
the pickup and the drop, and the pickup's time cumul does not exceed the
drop's (`time_dim.CumulVar(p_i) <= time_dim.CumulVar(d_i)`). -/
def routePairOk (r : VRoute) (pd : Nat × Nat) : Bool :=
  match tOf r pd.1, tOf r pd.2 with
  | some tp, some td => decide (tp ≤ td)
  | _, _ => false

/-- The path-order precedence constraint OR-Tools installs when the model
is closed, for every pair registered via `AddPickupAndDelivery`
(`MakePathPrecedenceConstraint`): whenever one route serves both the
pickup and the drop, the pickup's position on the path strictly precedes
the drop's.  Positions are first occurrences (`List.findIdx`); with every
node served at most once these are the occurrences. -/
def pathPrecOk (r : VRoute) (pd : Nat × Nat) : Bool :=
  !(r.stops.any (fun s => s.node == pd.1) && r.stops.any (fun s => s.node == pd.2))
    || decide (r.stops.findIdx (fun s => s.node == pd.1) <
        r.stops.findIdx (fun s => s.node == pd.2))

/-- The complete constraint model built by `solve_routes`.  Given that each
node is served exactly once, requiring some single route to serve both
members of a pair is exactly the `VehicleVar(p) == VehicleVar(d)`
constraint; `pathPrecOk` is the pickup-before-delivery path precedence the
library adds for `AddPickupAndDelivery` pairs at model close. -/
def feasibleSol (minutes : List (List Int)) (pairs : List (Nat × Nat))
    (vehicleCount : Nat) (cap : Int) (depot n : Nat) (sol : Sol) : Bool :=
  (sol.length == vehicleCount)
    && sol.all (routeOk (matGet minutes) (demandOf pairs) n cap depot)
    && visitsOnce n depot sol
    && pairs.all (fun pd => sol.any (fun r => routePairOk r pd))
    && pairs.all (fun pd => sol.all (fun r => pathPrecOk r pd))

/-- One extracted stop: `{"stop_id": ids[node], "load_at_stop": load,
"time_min": time}`. -/
structure StopOut where
  stop_id : String
  load_at_stop : Int
  time_min : Int
deriving DecidableEq, Repr

/-- One extracted route: vehicle id, stop list (including the final depot
return), total travel time (the final cumulative time) and the maximum
load observed before the end node. -/
structure RouteOut where
  vehicle_id : Nat
  stops : List StopOut
  total_travel_time_min : Int
  max_load : Int
deriving DecidableEq, Repr

/-- Route extraction of `solve_routes`: walk each vehicle route recording
stop id and both cumuls; `max_load` maximises over the stops visited in
the while loop (all but the end node) starting from `0`; the total time is
the cumulative time at the end node. -/
def extractRoutes (ids : List String) (sol : Sol) : List RouteOut :=
  sol.enum.map
    (fun vr =>
      { vehicle_id := vr.1
        stops := vr.2.stops.map (fun s => ⟨ids.getD s.node "", s.load, s.t⟩)
        total_travel_time_min := ((vr.2.stops.getLast?.map (fun s => s.t)).getD 0)
        max_load := ((vr.2.stops.dropLast.map (fun s => s.load)).foldl max 0) })

/-- The error raised when `routing.SolveWithParameters` returns nothing:
`HTTPException(status_code=500, detail="No feasible route found")`. -/
def noFeasibleErr : HErr := ⟨500, "No feasible route found"⟩

/-- `solve_routes`, with the OR-Tools search abstracted as the oracle
outcome: no solution raises the infeasibility error, otherwise the routes
are extracted.  Soundness of the oracle (any returned solution satisfies
the registered constraints) is a hypothesis of the theorems. -/
def solve_routes (oracle : Option Sol) (ids : List String)
    (_minutes : List (List Int)) (_pairs : List (Nat × Nat))
    (_vehicleCount : Nat) (_cap : Int) (_depot : Nat) :
    Except HErr (List RouteOut) :=
  match oracle with
  | none => .error noFeasibleErr
  | some sol => .ok (extractRoutes ids sol)

/-! ## General helper lemmas -/

theorem except_bind_ok {ε α β : Type} {x : Except ε α} {f : α → Except ε β}
    {b : β} (h : (x >>= f) = .ok b) : ∃ a, x = .ok a ∧ f a = .ok b := by
  cases x with
  | ok a => exact ⟨a, rfl, h⟩
  | error e =>
      exfalso
      simp only [Bind.bind, Except.bind] at h
      exact Except.noConfusion h

theorem foldlM_ok_induct {ε α β : Type} (P : β → Prop) (f : β → α → Except ε β) :
    ∀ (l : List α) (b0 bF : β),
      (∀ b a, a ∈ l → P b → ∀ b2, f b a = .ok b2 → P b2) →
      P b0 → l.foldlM f b0 = .ok bF → P bF := by
  intro l
  induction l with
  | nil =>
      intro b0 bF _ h0 hfold
      simp only [List.foldlM_nil] at hfold
      cases hfold
      exact h0
  | cons a l ih =>
      intro b0 bF hstep h0 hfold
      rw [List.foldlM_cons] at hfold
      obtain ⟨b1, hb1, hrest⟩ := except_bind_ok hfold
      exact ih b1 bF (fun b x hx => hstep b x (List.mem_cons_of_mem a hx))
        (hstep b0 a (List.mem_cons_self a l) h0 b1 hb1) hrest

theorem foldl_induct {α β : Type} (P : β → Prop) (f : β → α → β) :
    ∀ (l : List α) (b0 : β),
      (∀ b a, a ∈ l → P b → P (f b a)) → P b0 → P (l.foldl f b0) := by
  intro l
  induction l with
  | nil => intro b0 _ h0; exact h0
  | cons a l ih =>
      intro b0 hstep h0
      exact ih (f b0 a) (fun b x hx => hstep b x (List.mem_cons_of_mem a hx))
        (hstep b0 a (List.mem_cons_self a l) h0)

theorem le_foldl_max : ∀ (l : List Int) (a : Int), a ≤ l.foldl max a := by
  intro l
  induction l with
  | nil => intro a; exact le_refl a
  | cons x l ih =>
      intro a
      exact le_trans (le_max_left a x) (ih (max a x))

theorem foldl_max_le : ∀ (l : List Int) (a c : Int),
    a ≤ c → (∀ v ∈ l, v ≤ c) → l.foldl max a ≤ c := by
  intro l
  induction l with
  | nil => intro a c ha _; exact ha
  | cons x l ih =>
      intro a c ha hl
      exact ih (max a x) c
        (max_le ha (hl x (List.mem_cons_self x l)))
        (fun v hv => hl v (List.mem_cons_of_mem x hv))

theorem getElem?_append_cons_length {α : Type} :
    ∀ (as : List α) (b : α) (bs : List α), (as ++ b :: bs)[as.length]? = some b := by
  intro as
  induction as with
  | nil => intro b bs; simp
  | cons a as ih => intro b bs; simpa using ih b bs

/-! ## Lemmas about `_compute_block` -/

/-- The step function of the cell-value fold. -/
def cellStep (f : RawElem → Int) (i j : Nat) (acc : Option Int) (e : RawElem) :
    Option Int :=
  if e.originIndex = i ∧ e.destinationIndex = j then some (f e) else acc

theorem cellVal_eq_foldl (f : RawElem → Int) (els : List RawElem) (i j : Nat) :
    cellVal f els i j = els.foldl (cellStep f i j) none := rfl

theorem shape_initNone (nO nD : Nat) : Shape (initNone nO nD) nO nD := by
  constructor
  · simp [initNone]
  · intro row hrow
    rw [List.eq_of_mem_replicate hrow]
    simp

theorem get2_initNone {nO nD i j : Nat} (hi : i < nO) (hj : j < nD) :
    get2 (initNone nO nD) i j = some none := by
  simp [get2, initNone, List.getElem?_replicate, hi, hj]

theorem setEntryE_ok_inv {m m' : List (List (Option Int))} {i j : Nat} {v : Int}
    (h : setEntryE m i j v = .ok m') :
    ∃ row, m[i]? = some row ∧ j < row.length ∧
      m' = m.set i (row.set j (some v)) := by
  unfold setEntryE at h
  split at h
  case h_1 row hri =>
      split at h
      case isTrue hj =>
        cases h
        exact ⟨row, hri, hj, rfl⟩
      case isFalse hj => exact Except.noConfusion h
  case h_2 => exact Except.noConfusion h

theorem setEntryE_ok {m : List (List (Option Int))} {nO nD i j : Nat} (v : Int)
    (hs : Shape m nO nD) (hi : i < nO) (hj : j < nD) :
    ∃ m', setEntryE m i j v = .ok m' ∧ Shape m' nO nD ∧
      ∀ i' j', get2 m' i' j' =
        if i' = i ∧ j' = j then some (some v) else get2 m i' j' := by
  obtain ⟨hlen, hrows⟩ := hs
  have hi' : i < m.length := by rw [hlen]; exact hi
  have hri : m[i]? = some m[i] := List.getElem?_eq_getElem hi'
  have hrowmem : m[i] ∈ m := List.getElem_mem hi'
  have hrowlen : m[i].length = nD := hrows _ hrowmem
  have hj' : j < m[i].length := by rw [hrowlen]; exact hj
  refine ⟨m.set i (m[i].set j (some v)), ?_, ⟨?_, ?_⟩, ?_⟩
  · unfold setEntryE
    rw [hri]
    simp only [hj', if_true]
  · rw [List.length_set]; exact hlen
  · intro row hrow
    rcases List.mem_or_eq_of_mem_set hrow with hold | hnew
    · exact hrows _ hold
    · rw [hnew, List.length_set]; exact hrows _ hrowmem
  · intro i' j'
    unfold get2
    by_cases hii : i' = i
    · subst hii
      have h1 : (m.set i' (m[i'].set j (some v)))[i']? = some (m[i'].set j (some v)) := by
        rw [List.getElem?_set]
        simp [hi']
      rw [h1, hri]
      simp only [Option.some_bind]
      by_cases hjj : j' = j
      · subst hjj
        rw [List.getElem?_set]
        simp [hj']
      · rw [List.getElem?_set]
        rw [if_neg (fun hc => hjj hc.symm)]
        simp [hjj]
    · have h1 : (m.set i (m[i].set j (some v)))[i']? = m[i']? := by
        rw [List.getElem?_set]
        rw [if_neg (fun hc => hii hc.symm)]
      rw [h1]
      simp [hii]

theorem except_ok_bind {ε α β : Type} (a : α) (f : α → Except ε β) :
    (Except.ok (ε := ε) a >>= f) = f a := rfl

theorem applyElems_ok (nO nD : Nat) :
    ∀ (els : List RawElem) (ma mb : List (List (Option Int))),
      Shape ma nO nD → Shape mb nO nD →
      (∀ e ∈ els, e.originIndex < nO ∧ e.destinationIndex < nD) →
      ∃ ma' mb', els.foldlM applyElem (ma, mb) = .ok (ma', mb') ∧
        Shape ma' nO nD ∧ Shape mb' nO nD ∧
        ∀ i j (ca cb : Option Int), get2 ma i j = some ca → get2 mb i j = some cb →
          get2 ma' i j = some (els.foldl (cellStep storedMinutes i j) ca) ∧
          get2 mb' i j = some (els.foldl (cellStep storedMeters i j) cb) := by
  intro els
  induction els with
  | nil =>
      intro ma mb hsa hsb _
      exact ⟨ma, mb, rfl, hsa, hsb, fun i j ca cb ha hb => ⟨ha, hb⟩⟩
  | cons e els ih =>
      intro ma mb hsa hsb hin
      have he := hin e (List.mem_cons_self e els)
      obtain ⟨ma1, ha1, hsa1, hgeta⟩ :=
        setEntryE_ok (storedMinutes e) hsa he.1 he.2
      obtain ⟨mb1, hb1, hsb1, hgetb⟩ :=
        setEntryE_ok (storedMeters e) hsb he.1 he.2
      have happ : applyElem (ma, mb) e = .ok (ma1, mb1) := by
        unfold applyElem
        rw [ha1, except_ok_bind, hb1, except_ok_bind]
        rfl
      obtain ⟨ma', mb', hfold, hsa', hsb', hget'⟩ :=
        ih ma1 mb1 hsa1 hsb1 (fun x hx => hin x (List.mem_cons_of_mem e hx))
      refine ⟨ma', mb', ?_, hsa', hsb', ?_⟩
      · rw [List.foldlM_cons, happ]
        simpa using hfold
      · intro i j ca cb ha hb
        have ha1' : get2 ma1 i j = some (cellStep storedMinutes i j ca e) := by
          rw [hgeta i j]
          unfold cellStep
          by_cases hc : i = e.originIndex ∧ j = e.destinationIndex
          · rw [if_pos hc, if_pos ⟨hc.1.symm, hc.2.symm⟩]
          · rw [if_neg hc, if_neg (fun hc2 => hc ⟨hc2.1.symm, hc2.2.symm⟩), ha]
        have hb1' : get2 mb1 i j = some (cellStep storedMeters i j cb e) := by
          rw [hgetb i j]
          unfold cellStep
          by_cases hc : i = e.originIndex ∧ j = e.destinationIndex
          · rw [if_pos hc, if_pos ⟨hc.1.symm, hc.2.symm⟩]
          · rw [if_neg hc, if_neg (fun hc2 => hc ⟨hc2.1.symm, hc2.2.symm⟩), hb]
        have := hget' i j _ _ ha1' hb1'
        simpa [List.foldl_cons] using this

theorem shape_fillNone {m : List (List (Option Int))} {nO nD : Nat} (s : Int)
    (h : Shape m nO nD) : Shape (fillNone s m) nO nD := by
  obtain ⟨hlen, hrows⟩ := h
  constructor
  · simp [fillNone, hlen]
  · intro row hrow
    simp only [fillNone, List.mem_map] at hrow
    obtain ⟨r0, hr0, hr0eq⟩ := hrow
    rw [← hr0eq]
    simp [hrows _ hr0]

theorem get2_fillNone {m : List (List (Option Int))} {i j : Nat}
    {c : Option Int} (s : Int) (h : get2 m i j = some c) :
    get2 (fillNone s m) i j = some (c.getD s) := by
  unfold get2 at h
  unfold get2 fillNone
  cases hri : m[i]? with
  | none => rw [hri] at h; exact Option.noConfusion h
  | some row =>
      rw [hri] at h
      simp only [Option.some_bind] at h
      simp [List.getElem?_map, hri, h]

/-- Characterisation of `_compute_block` on in-range response elements:
the call succeeds, both block matrices have the requested dimensions, and
each cell holds the value of the last element addressed to it, or the
sentinel when no element addresses it (and, by `storedMinutes` and
`storedMeters`, the sentinel when its element reports no route). -/
theorem computeBlock_ok (els : List RawElem) (nO nD : Nat)
    (hin : ∀ e ∈ els, e.originIndex < nO ∧ e.destinationIndex < nD) :
    ∃ ma mb, computeBlock els nO nD = .ok (ma, mb) ∧
      Shape ma nO nD ∧ Shape mb nO nD ∧
      ∀ i j, i < nO → j < nD →
        get2 ma i j = some ((cellVal storedMinutes els i j).getD (10 ^ 6)) ∧
        get2 mb i j = some ((cellVal storedMeters els i j).getD (10 ^ 9)) := by
  obtain ⟨ma', mb', hfold, hsa', hsb', hget'⟩ :=
    applyElems_ok nO nD els (initNone nO nD) (initNone nO nD)
      (shape_initNone nO nD) (shape_initNone nO nD) hin
  refine ⟨fillNone (10 ^ 6) ma', fillNone (10 ^ 9) mb', ?_,
    shape_fillNone _ hsa', shape_fillNone _ hsb', ?_⟩
  · unfold computeBlock
    rw [hfold]
    rfl
  · intro i j hi hj
    have hbase := hget' i j none none (get2_initNone hi hj) (get2_initNone hi hj)
    rw [cellVal_eq_foldl, cellVal_eq_foldl]
    exact ⟨get2_fillNone _ hbase.1, get2_fillNone _ hbase.2⟩

theorem storedMinutes_nonneg (e : RawElem) : 0 ≤ storedMinutes e := by
  unfold storedMinutes
  split
  · exact Int.natCast_nonneg _
  · norm_num

theorem storedMeters_nonneg (e : RawElem) : 0 ≤ storedMeters e := by
  unfold storedMeters
  split
  · exact Int.natCast_nonneg _
  · norm_num

/-- Entries of the element-loop matrices are written stored values. -/
def ONonneg (m : List (List (Option Int))) : Prop :=
  ∀ row ∈ m, ∀ o ∈ row, ∀ v : Int, o = some v → 0 ≤ v

theorem onneg_initNone (nO nD : Nat) :
    ONonneg (initNone nO nD) := by
  intro row hrow o ho v hv
  rw [List.eq_of_mem_replicate hrow] at ho
  rw [List.eq_of_mem_replicate ho] at hv
  exact Option.noConfusion hv

theorem onneg_setEntryE {m m' : List (List (Option Int))}
    {i j : Nat} {v : Int} (h : setEntryE m i j v = .ok m')
    (hm : ONonneg m) (hv : 0 ≤ v) : ONonneg m' := by
  obtain ⟨row, hri, hj, hm'⟩ := setEntryE_ok_inv h
  subst hm'
  intro row' hrow' o ho w hw
  rcases List.mem_or_eq_of_mem_set hrow' with hold | hnew
  · exact hm row' hold o ho w hw
  · subst hnew
    rcases List.mem_or_eq_of_mem_set ho with hoold | honew
    · exact hm row (List.getElem?_mem hri) o hoold w hw
    · subst honew
      cases hw
      exact hv

theorem computeBlock_ok_nonneg {els : List RawElem} {nO nD : Nat}
    {a b : List (List Int)} (h : computeBlock els nO nD = .ok (a, b)) :
    Nonneg a ∧ Nonneg b := by
  unfold computeBlock at h
  obtain ⟨ab, hab, hrest⟩ := except_bind_ok h
  have hP : ONonneg ab.1 ∧ ONonneg ab.2 := by
    refine foldlM_ok_induct
      (fun p => ONonneg p.1 ∧ ONonneg p.2)
      applyElem els (initNone nO nD, initNone nO nD) ab ?_
      ⟨onneg_initNone _ _, onneg_initNone _ _⟩ hab
    intro p e _ hp p2 hstep
    unfold applyElem at hstep
    obtain ⟨a1, ha1, hstep2⟩ := except_bind_ok hstep
    obtain ⟨b1, hb1, hstep3⟩ := except_bind_ok hstep2
    cases hstep3
    exact ⟨onneg_setEntryE ha1 hp.1 (storedMinutes_nonneg e),
           onneg_setEntryE hb1 hp.2 (storedMeters_nonneg e)⟩
  have hfill : ∀ (m : List (List (Option Int))) (s : Int),
      ONonneg m → 0 ≤ s → Nonneg (fillNone s m) := by
    intro m s hm hs row' hrow' v hv
    simp only [fillNone, List.mem_map] at hrow'
    obtain ⟨r0, hr0, hr0eq⟩ := hrow'
    subst hr0eq
    simp only [List.mem_map] at hv
    obtain ⟨o, ho, hoeq⟩ := hv
    subst hoeq
    cases o with
    | none => exact hs
    | some w => exact hm r0 hr0 (some w) ho w rfl
  cases hrest
  constructor
  · exact hfill ab.1 (10 ^ 6) hP.1 (by norm_num)
  · exact hfill ab.2 (10 ^ 9) hP.2 (by norm_num)

/-! ## Lemmas about the merge loop and `build_matrix` -/

theorem shape_set2 {m : List (List Int)} {nr nc : Nat} (i j : Nat) (v : Int)
    (h : Shape m nr nc) : Shape (set2 m i j v) nr nc := by
  obtain ⟨hlen, hrows⟩ := h
  unfold set2
  cases hri : m[i]? with
  | none => exact ⟨hlen, hrows⟩
  | some row =>
      constructor
      · rw [List.length_set]; exact hlen
      · intro row' hrow'
        rcases List.mem_or_eq_of_mem_set hrow' with hold | hnew
        · exact hrows _ hold
        · rw [hnew, List.length_set]
          exact hrows _ (List.getElem?_mem hri)

theorem nonneg_set2 {m : List (List Int)} {v : Int} (i j : Nat)
    (h : Nonneg m) (hv : 0 ≤ v) : Nonneg (set2 m i j v) := by
  unfold set2
  cases hri : m[i]? with
  | none => exact h
  | some row =>
      intro row' hrow' w hw
      rcases List.mem_or_eq_of_mem_set hrow' with hold | hnew
      · exact h row' hold w hw
      · subst hnew
        rcases List.mem_or_eq_of_mem_set hw with hwold | hwnew
        · exact h row (List.getElem?_mem hri) w hwold
        · subst hwnew; exact hv

theorem shape_writeBlock {m : List (List Int)} {nr nc : Nat}
    (blk : List (List Int)) (bi bj : Nat) (h : Shape m nr nc) :
    Shape (writeBlock m blk bi bj) nr nc := by
  unfold writeBlock
  refine foldl_induct (fun acc => Shape acc nr nc) _ blk.enum m ?_ h
  intro acc ir _ hacc
  refine foldl_induct (fun acc2 => Shape acc2 nr nc) _ ir.2.enum acc ?_ hacc
  intro acc2 jv _ hacc2
  exact shape_set2 _ _ _ hacc2

theorem nonneg_writeBlock {m blk : List (List Int)} (bi bj : Nat)
    (h : Nonneg m) (hblk : Nonneg blk) : Nonneg (writeBlock m blk bi bj) := by
  unfold writeBlock
  refine foldl_induct (fun acc => Nonneg acc) _ blk.enum m ?_ h
  intro acc ir hir hacc
  have hrow : ir.2 ∈ blk := List.getElem?_mem (List.mem_enum_iff_getElem?.mp hir)
  refine foldl_induct (fun acc2 => Nonneg acc2) _ ir.2.enum acc ?_ hacc
  intro acc2 jv hjv hacc2
  have hv : jv.2 ∈ ir.2 := List.getElem?_mem (List.mem_enum_iff_getElem?.mp hjv)
  exact nonneg_set2 _ _ hacc2 (hblk ir.2 hrow jv.2 hv)

theorem resolvePoints_ids_len {g : Geocoder} {rc : Bool} :
    ∀ {pts : List Pt} {ids : List String} {cs : List Coord} {gs : List String},
      resolvePoints g rc pts = .ok (ids, cs, gs) →
      ids = pts.map Pt.id ∧ cs.length = pts.length := by
  intro pts
  induction pts with
  | nil =>
      intro ids cs gs h
      unfold resolvePoints at h
      cases h
      exact ⟨rfl, rfl⟩
  | cons p rest ih =>
      intro ids cs gs h
      unfold resolvePoints at h
      obtain ⟨cp, hcp, h2⟩ := except_bind_ok h
      obtain ⟨r, hr, h3⟩ := except_bind_ok h2
      cases h3
      obtain ⟨hids, hlen⟩ := ih hr
      constructor
      · simp [hids]
      · simp [hlen]

theorem lookupCache_cons_self (k : CacheKey) (m : MatrixRes) (c : Cache) :
    lookupCache ((k, m) :: c) k = some m := by
  simp [lookupCache, List.find?_cons]

theorem lookupCache_mem {c : Cache} {k : CacheKey} {m : MatrixRes}
    (h : lookupCache c k = some m) : (k, m) ∈ c := by
  unfold lookupCache at h
  cases hf : c.find? (fun kv => decide (kv.1 = k)) with
  | none => rw [hf] at h; exact Option.noConfusion h
  | some kv =>
      rw [hf] at h
      have hmem := List.mem_of_find?_eq_some hf
      have hk : kv.1 = k := by
        have := List.find?_some hf
        simpa using this
      have hm : kv.2 = m := by cases h; rfl
      rw [← hk, ← hm]
      exact hmem

/-- `build_matrix` on the cache-hit path: resolution succeeded and the key
is cached, so the stored matrix is returned unchanged, the cache is
untouched, and no block computation happens. -/
theorem buildMatrix_hit {g : Geocoder} (prov : Provider) {cache : Cache}
    {pts : List Pt} {dep : Option String} {pref : String} {rc : Bool}
    {ids : List String} {cs : List Coord} {gs : List String} {m : MatrixRes}
    (hres : resolvePoints g rc pts = .ok (ids, cs, gs))
    (hhit : lookupCache cache ⟨cs.map round6c, dep, pref⟩ = some m) :
    buildMatrix g prov cache pts dep pref rc = .ok (m, cache, ⟨gs, 0⟩) := by
  unfold buildMatrix
  rw [hres, except_ok_bind]
  dsimp only
  rw [hhit]

/-- `build_matrix` on the cache-miss path. -/
theorem buildMatrix_miss {g : Geocoder} {prov : Provider} {cache : Cache}
    {pts : List Pt} {dep : Option String} {pref : String} {rc : Bool}
    {ids : List String} {cs : List Coord} {gs : List String}
    {b : List (List Int) × List (List Int) × Nat}
    (hres : resolvePoints g rc pts = .ok (ids, cs, gs))
    (hmiss : lookupCache cache ⟨cs.map round6c, dep, pref⟩ = none)
    (hblocks : buildBlocks prov cs dep pref
      (List.replicate cs.length (List.replicate cs.length 0))
      (List.replicate cs.length (List.replicate cs.length 0)) = .ok b) :
    buildMatrix g prov cache pts dep pref rc =
      .ok (⟨ids, b.1, b.2.1⟩,
        (⟨cs.map round6c, dep, pref⟩, (⟨ids, b.1, b.2.1⟩ : MatrixRes)) :: cache,
        ⟨gs, b.2.2⟩) := by
  unfold buildMatrix
  rw [hres, except_ok_bind]
  dsimp only
  rw [hmiss, hblocks, except_ok_bind]
  rfl

/-- Inversion for a successful `build_matrix` call: resolution succeeded,
and the result came either from the cache or from a fresh block build. -/
theorem buildMatrix_ok_inv {g : Geocoder} {prov : Provider} {cache : Cache}
    {pts : List Pt} {dep : Option String} {pref : String} {rc : Bool}
    {m : MatrixRes} {c2 : Cache} {log : BuildLog}
    (h : buildMatrix g prov cache pts dep pref rc = .ok (m, c2, log)) :
    ∃ ids cs gs, resolvePoints g rc pts = .ok (ids, cs, gs) ∧
      ((lookupCache cache ⟨cs.map round6c, dep, pref⟩ = some m ∧
          c2 = cache ∧ log = ⟨gs, 0⟩) ∨
        (lookupCache cache ⟨cs.map round6c, dep, pref⟩ = none ∧
          ∃ b, buildBlocks prov cs dep pref
              (List.replicate cs.length (List.replicate cs.length 0))
              (List.replicate cs.length (List.replicate cs.length 0)) = .ok b ∧
            m = ⟨ids, b.1, b.2.1⟩ ∧
            c2 = (⟨cs.map round6c, dep, pref⟩, m) :: cache ∧
            log = ⟨gs, b.2.2⟩)) := by
  unfold buildMatrix at h
  obtain ⟨r, hr, h2⟩ := except_bind_ok h
  obtain ⟨ids, cs, gs⟩ := r
  refine ⟨ids, cs, gs, hr, ?_⟩
  dsimp only at h2
  cases hlk : lookupCache cache ⟨cs.map round6c, dep, pref⟩ with
  | some m0 =>
      rw [hlk] at h2
      cases h2
      exact Or.inl ⟨rfl, rfl, rfl⟩
  | none =>
      rw [hlk] at h2
      obtain ⟨b, hb, h3⟩ := except_bind_ok h2
      cases h3
      exact Or.inr ⟨rfl, b, hb, rfl, rfl, rfl⟩

theorem shape_replicate0 (n : Nat) :
    Shape (List.replicate n (List.replicate n (0 : Int))) n n := by
  constructor
  · simp
  · intro row hrow
    rw [List.eq_of_mem_replicate hrow]
    simp

theorem nonneg_replicate0 (n : Nat) :
    Nonneg (List.replicate n (List.replicate n (0 : Int))) := by
  intro row hrow v hv
  rw [List.eq_of_mem_replicate hrow] at hv
  rw [List.eq_of_mem_replicate hv]

theorem buildBlocks_shape_nonneg {prov : Provider} {cs : List Coord}
    {dep : Option String} {pref : String} {m0 mt0 : List (List Int)}
    {b : List (List Int) × List (List Int) × Nat} {n : Nat}
    (hm0 : Shape m0 n n) (hmt0 : Shape mt0 n n)
    (hn0 : Nonneg m0) (hnt0 : Nonneg mt0)
    (h : buildBlocks prov cs dep pref m0 mt0 = .ok b) :
    Shape b.1 n n ∧ Shape b.2.1 n n ∧ Nonneg b.1 ∧ Nonneg b.2.1 := by
  unfold buildBlocks at h
  refine foldlM_ok_induct
    (fun acc => Shape acc.1 n n ∧ Shape acc.2.1 n n ∧ Nonneg acc.1 ∧ Nonneg acc.2.1)
    _ (chunks cs).enum (m0, mt0, 0) b ?_ ⟨hm0, hmt0, hn0, hnt0⟩ h
  intro acc ob _ hacc acc2 hstep
  refine foldlM_ok_induct
    (fun acc => Shape acc.1 n n ∧ Shape acc.2.1 n n ∧ Nonneg acc.1 ∧ Nonneg acc.2.1)
    _ (chunks cs).enum acc acc2 ?_ hacc hstep
  intro acc3 db _ hacc3 acc4 hstep2
  obtain ⟨els, hels, hstep3⟩ := except_bind_ok hstep2
  obtain ⟨blk, hblk, hstep4⟩ := except_bind_ok hstep3
  obtain ⟨ba, bb⟩ := blk
  have hnn := computeBlock_ok_nonneg hblk
  cases hstep4
  exact ⟨shape_writeBlock _ _ _ hacc3.1, shape_writeBlock _ _ _ hacc3.2.1,
    nonneg_writeBlock _ _ hacc3.2.2.1 hnn.1,
    nonneg_writeBlock _ _ hacc3.2.2.2 hnn.2⟩

/-- Well-formedness of the module cache: every stored matrix is square of
the dimension of its key's coordinate list, with non-negative entries.
The empty starting cache satisfies this trivially, and `build_matrix`
preserves it. -/
def CacheWF (c : Cache) : Prop :=
  ∀ kv ∈ c,
    Shape kv.2.minutes kv.1.coords.length kv.1.coords.length ∧
    Shape kv.2.meters kv.1.coords.length kv.1.coords.length ∧
    Nonneg kv.2.minutes ∧ Nonneg kv.2.meters

/-! ## Concrete instances used by witnesses and counterexamples -/

/-- A geocoder resolving every address to the fixed coordinate `(1, 2)`. -/
def gArb : Geocoder := fun _ => .ok ((1 : ℚ), (2 : ℚ))

/-- A provider returning an empty element list for every block request. -/
def provEmpty : Provider := fun _ _ _ _ => .ok []

/-- A concrete coordinate. -/
def coordA : Coord := ((1 : ℚ), (2 : ℚ))

/-- A coordinate-carrying point with id `"A"`. -/
def ptA : Pt := ⟨"A", some 1, some 2, none⟩

/-- The same coordinates under a different id `"B"`. -/
def ptB : Pt := ⟨"B", some 1, some 2, none⟩

/-- An address-only point. -/
def ptAddr : Pt := ⟨"C", none, none, some "addr"⟩

/-- The cache key produced for a single-stop request at `coordA` with no
departure time and traffic-aware preference. -/
def keyA : CacheKey := ⟨[round6c coordA], none, "TRAFFIC_AWARE"⟩

/-- The matrix `build_matrix` produces for the single stop `ptA` under
`provEmpty`: the lone diagonal entry is filled with the sentinels. -/
def mA : MatrixRes := ⟨["A"], [[1000000]], [[1000000000]]⟩

theorem chunks_nil : chunks ([] : List Coord) = [] := by
  simp [chunks]

theorem chunks_one : chunks [coordA] = [[coordA]] := by
  rw [chunks]
  simp [chunks, MAX_BLOCK]

theorem buildBlocks_empty (prov : Provider) (dep : Option String) (pref : String) :
    buildBlocks prov [] dep pref [] [] = .ok ([], [], 0) := by
  unfold buildBlocks
  rw [chunks_nil]
  rfl

theorem buildBlocks_one :
    buildBlocks provEmpty [coordA] none "TRAFFIC_AWARE" [[0]] [[0]] =
      .ok ([[1000000]], [[1000000000]], 1) := by
  unfold buildBlocks
  rw [chunks_one]
  rfl

/-- The concrete single-stop build: a cache miss that stores `mA`. -/
theorem buildA :
    buildMatrix gArb provEmpty [] [ptA] none "TRAFFIC_AWARE" false =
      .ok (mA, [(keyA, mA)], ⟨[], 1⟩) :=
  buildMatrix_miss
    (show resolvePoints gArb false [ptA] = .ok (["A"], [coordA], []) from rfl)
    (show lookupCache [] ⟨[coordA].map round6c, none, "TRAFFIC_AWARE"⟩ = none from rfl)
    buildBlocks_one

/-! ## Claims C4 to C10 (matrix builder) -/

/-- C4: for every in-range collection of elements returned by the
travel-matrix provider, `_compute_block` succeeds (never an error), both
result matrices have the full requested dimensions with every entry set
(total), and each cell holds the stored value of its (last) provider
element — `round(duration_seconds / 60)` minutes and the integer meters
when the element reports an existing route with duration and distance, the
sentinels `10^6` / `10^9` when the element reports no route — and the
sentinels when no element addresses the cell at all. -/
theorem claim_C4 (els : List RawElem) (nO nD : Nat)
    (hin : ∀ e ∈ els, e.originIndex < nO ∧ e.destinationIndex < nD) :
    ∃ ma mb, computeBlock els nO nD = .ok (ma, mb) ∧
      Shape ma nO nD ∧ Shape mb nO nD ∧
      ∀ i j, i < nO → j < nD →
        get2 ma i j = some ((cellVal storedMinutes els i j).getD (10 ^ 6)) ∧
        get2 mb i j = some ((cellVal storedMeters els i j).getD (10 ^ 9)) :=
  computeBlock_ok els nO nD hin

/-- A two-element provider response for a 1-by-2 block: one reachable pair
(90 seconds, 1234 meters), one element with no route data. -/
def elsW : List RawElem :=
  [⟨0, 0, some "ROUTE_EXISTS", some 90, some 1234⟩, ⟨0, 1, none, none, none⟩]

/-- Witness for C4 at a concrete block. -/
theorem claim_C4_witness :
    (∀ e ∈ elsW, e.originIndex < 1 ∧ e.destinationIndex < 2) ∧
      (∃ ma mb, computeBlock elsW 1 2 = .ok (ma, mb) ∧
        Shape ma 1 2 ∧ Shape mb 1 2 ∧
        ∀ i j, i < 1 → j < 2 →
          get2 ma i j = some ((cellVal storedMinutes elsW i j).getD (10 ^ 6)) ∧
          get2 mb i j = some ((cellVal storedMeters elsW i j).getD (10 ^ 9))) :=
  ⟨by decide, claim_C4 elsW 1 2 (by decide)⟩

/-- C5 counterexample: an empty stop list does not raise
`InvalidInputError` — `build_matrix` returns (and caches) an empty matrix,
contradicting the claim that nothing is returned. -/
theorem claim_C5_counterexample :
    buildMatrix gArb provEmpty [] [] none "TRAFFIC_AWARE" false =
      .ok (⟨[], [], []⟩, [(⟨[], none, "TRAFFIC_AWARE"⟩, ⟨[], [], []⟩)], ⟨[], 0⟩) :=
  buildMatrix_miss
    (show resolvePoints gArb false [] = .ok ([], [], []) from rfl)
    (show lookupCache [] ⟨([] : List Coord).map round6c, none, "TRAFFIC_AWARE"⟩ =
      none from rfl)
    (buildBlocks_empty provEmpty none "TRAFFIC_AWARE")

/-- C5 (amended): calling the Matrix Builder with an empty stop list does
not fail; it returns the empty matrix (empty ids, minutes and meters),
stores it in the cache, and performs no geocoding and no provider calls. -/
theorem claim_C5 (g : Geocoder) (prov : Provider) (dep : Option String)
    (pref : String) (rc : Bool) :
    buildMatrix g prov [] [] dep pref rc =
      .ok (⟨[], [], []⟩, [(⟨[], dep, pref⟩, ⟨[], [], []⟩)], ⟨[], 0⟩) :=
  buildMatrix_miss
    (show resolvePoints g rc [] = .ok ([], [], []) from rfl)
    (show lookupCache [] ⟨([] : List Coord).map round6c, dep, pref⟩ =
      none from rfl)
    (buildBlocks_empty prov dep pref)

/-- C6 (amended): when the cache holds an entry for the key computed from
the resolved coordinates, departure time and preference, `build_matrix`
returns the stored matrix unchanged, leaves the cache unchanged, and makes
no route-matrix provider calls (the result does not depend on the provider
at all); the geocoding calls are exactly those of coordinate resolution,
which runs before the cache lookup on every build. -/
theorem claim_C6 {g : Geocoder} {cache : Cache} {pts : List Pt}
    {dep : Option String} {pref : String} {rc : Bool} {ids : List String}
    {cs : List Coord} {gs : List String} {m : MatrixRes}
    (hres : resolvePoints g rc pts = .ok (ids, cs, gs))
    (hhit : lookupCache cache ⟨cs.map round6c, dep, pref⟩ = some m) :
    ∀ prov : Provider,
      buildMatrix g prov cache pts dep pref rc = .ok (m, cache, ⟨gs, 0⟩) :=
  fun prov => buildMatrix_hit prov hres hhit

/-- Witness for C6: a concrete cache hit on a coordinate-only stop. -/
theorem claim_C6_witness :
    (resolvePoints gArb false [ptA] = .ok (["A"], [coordA], [])) ∧
      (lookupCache [(keyA, mA)] ⟨[coordA].map round6c, none, "TRAFFIC_AWARE"⟩ =
        some mA) ∧
      ∀ prov : Provider,
        buildMatrix gArb prov [(keyA, mA)] [ptA] none "TRAFFIC_AWARE" false =
          .ok (mA, [(keyA, mA)], ⟨[], 0⟩) :=
  ⟨rfl, lookupCache_cons_self keyA mA [],
    claim_C6 rfl (lookupCache_cons_self keyA mA [])⟩

/-- C6 counterexample: on a cache hit for an address-only stop the
geocoder is still called (the address is resolved before the cache lookup,
on every build), refuting the claim that a cache hit performs no
geocoding / network calls. -/
theorem claim_C6_counterexample :
    buildMatrix gArb provEmpty [(keyA, mA)] [ptAddr] none "TRAFFIC_AWARE" false =
      .ok (mA, [(keyA, mA)], ⟨["addr"], 0⟩) ∧ (["addr"] : List String) ≠ [] :=
  ⟨buildMatrix_hit provEmpty (rfl) (lookupCache_cons_self keyA mA []), by decide⟩

/-- C7: building twice with the same points, departure time and routing
preference returns the identical matrix value: the second build is a cache
hit on the key stored by the first build, returns exactly the stored
matrix, leaves the cache unchanged, and makes no provider calls (the
second build's provider is irrelevant). -/
theorem claim_C7 {g : Geocoder} {prov : Provider} {c0 : Cache} {pts : List Pt}
    {dep : Option String} {pref : String} {rc : Bool} {m : MatrixRes}
    {c1 : Cache} {log : BuildLog}
    (h1 : buildMatrix g prov c0 pts dep pref rc = .ok (m, c1, log)) :
    ∀ prov2 : Provider,
      buildMatrix g prov2 c1 pts dep pref rc = .ok (m, c1, ⟨log.geocoded, 0⟩) := by
  obtain ⟨ids, cs, gs, hres, hcase⟩ := buildMatrix_ok_inv h1
  intro prov2
  rcases hcase with ⟨hhit, hc, hl⟩ | ⟨hmiss, b, hb, hm, hc, hl⟩
  · subst hc; subst hl
    exact buildMatrix_hit prov2 hres hhit
  · subst hm; subst hc; subst hl
    exact buildMatrix_hit prov2 hres (lookupCache_cons_self _ _ c0)

/-- Witness for C7: the concrete single-stop build, rebuilt. -/
theorem claim_C7_witness :
    (buildMatrix gArb provEmpty [] [ptA] none "TRAFFIC_AWARE" false =
        .ok (mA, [(keyA, mA)], ⟨[], 1⟩)) ∧
      ∀ prov2 : Provider,
        buildMatrix gArb prov2 [(keyA, mA)] [ptA] none "TRAFFIC_AWARE" false =
          .ok (mA, [(keyA, mA)], ⟨[], 0⟩) :=
  ⟨buildA, claim_C7 buildA⟩

/-- C8 (amended): every matrix returned by `build_matrix` for a stop set
of size `N` (from a well-formed cache) has `N`-by-`N` minutes and meters
with every entry a non-negative integer.  The diagonal, however, is not
unconditionally zero: `minutes[i][i]` holds the provider-reported value
for the pair `(i, i)`, or the sentinel when the provider omits it (see the
counterexample). -/
theorem claim_C8 {g : Geocoder} {prov : Provider} {cache : Cache}
    {pts : List Pt} {dep : Option String} {pref : String} {rc : Bool}
    {m : MatrixRes} {c2 : Cache} {log : BuildLog}
    (hwf : CacheWF cache)
    (h : buildMatrix g prov cache pts dep pref rc = .ok (m, c2, log)) :
    Shape m.minutes pts.length pts.length ∧
      Shape m.meters pts.length pts.length ∧
      Nonneg m.minutes ∧ Nonneg m.meters := by
  obtain ⟨ids, cs, gs, hres, hcase⟩ := buildMatrix_ok_inv h
  have hlen : cs.length = pts.length := (resolvePoints_ids_len hres).2
  rcases hcase with ⟨hhit, _, _⟩ | ⟨hmiss, b, hb, hm, _, _⟩
  · have hmem := lookupCache_mem hhit
    have hw := hwf _ hmem
    simp only [List.length_map] at hw
    rw [hlen] at hw
    exact hw
  · subst hm
    have hres' := buildBlocks_shape_nonneg (shape_replicate0 cs.length)
      (shape_replicate0 cs.length) (nonneg_replicate0 cs.length)
      (nonneg_replicate0 cs.length) hb
    rw [hlen] at hres'
    exact hres'

/-- Witness for C8 at the concrete single-stop build from an empty cache. -/
theorem claim_C8_witness :
    CacheWF [] ∧
      (Shape mA.minutes [ptA].length [ptA].length ∧
        Shape mA.meters [ptA].length [ptA].length ∧
        Nonneg mA.minutes ∧ Nonneg mA.meters) :=
  ⟨fun kv hkv => absurd hkv (List.not_mem_nil kv),
    claim_C8 (fun kv hkv => absurd hkv (List.not_mem_nil kv)) buildA⟩

/-- C8 counterexample: for a one-stop build whose provider response omits
the diagonal element, the returned matrix has `minutes[0][0] = 10^6`, not
`0` — the diagonal-zero part of the claim fails on the code. -/
theorem claim_C8_counterexample :
    buildMatrix gArb provEmpty [] [ptA] none "TRAFFIC_AWARE" false =
        .ok (mA, [(keyA, mA)], ⟨[], 1⟩) ∧
      get2 mA.minutes 0 0 = some 1000000 ∧ ((1000000 : Int) ≠ 0) :=
  ⟨buildA, rfl, by decide⟩

/-- C9: a collection of normal provider elements parses to the same
normalized sequence whether it is encoded as one JSON array or as an
NDJSON stream of individual objects, so the merged matrix does not depend
on the encoding the provider chose. -/
theorem claim_C9 (els : List RawElem) :
    parseRouteMatrixText (encArray els) = .ok (els.map ArrItem.elem) ∧
      parseRouteMatrixText (encNDJSON els) = .ok (els.map ArrItem.elem) := by
  constructor
  · cases els with
    | nil => rfl
    | cons e els => rfl
  · show (els.map (fun e => MLine.objLine e false)).foldlM lineStep [] =
      .ok (els.map ArrItem.elem)
    have go : ∀ (l : List RawElem) (acc : List ArrItem),
        (l.map (fun e => MLine.objLine e false)).foldlM lineStep acc =
          .ok (acc ++ l.map ArrItem.elem) := by
      intro l
      induction l with
      | nil =>
          intro acc
          simp only [List.map_nil, List.foldlM_nil, List.append_nil]
          rfl
      | cons e l ih =>
          intro acc
          simp only [List.map_cons, List.foldlM_cons]
          rw [show lineStep acc (MLine.objLine e false) =
            .ok (acc ++ [ArrItem.elem e]) from rfl]
          rw [except_ok_bind, ih]
          simp
    simpa using go els []

/-- C10: the cache key is computed only from rounded coordinates,
departure time and routing preference — not from ids.  After a first
(cache-missing) build for points `pts1`, a second build whose points
resolve to the same coordinates returns the cached matrix, which carries
the first build's ids (`pts1`'s ids), regardless of the second request's
ids. -/
theorem claim_C10 {g : Geocoder} {prov : Provider} {c0 : Cache}
    {pts1 pts2 : List Pt} {dep : Option String} {pref : String} {rc : Bool}
    {ids1 ids2 : List String} {cs : List Coord} {gs1 gs2 : List String}
    {m : MatrixRes} {c1 : Cache} {log : BuildLog}
    (hres1 : resolvePoints g rc pts1 = .ok (ids1, cs, gs1))
    (hres2 : resolvePoints g rc pts2 = .ok (ids2, cs, gs2))
    (hmiss : lookupCache c0 ⟨cs.map round6c, dep, pref⟩ = none)
    (h1 : buildMatrix g prov c0 pts1 dep pref rc = .ok (m, c1, log)) :
    m.ids = pts1.map Pt.id ∧
      ∀ prov2 : Provider,
        buildMatrix g prov2 c1 pts2 dep pref rc = .ok (m, c1, ⟨gs2, 0⟩) := by
  unfold buildMatrix at h1
  rw [hres1, except_ok_bind] at h1
  dsimp only at h1
  rw [hmiss] at h1
  obtain ⟨b, hb, h2⟩ := except_bind_ok h1
  cases h2
  refine ⟨(resolvePoints_ids_len hres1).1, fun prov2 => ?_⟩
  exact buildMatrix_hit prov2 hres2 (lookupCache_cons_self _ _ c0)

/-- Witness for C10: same coordinates, different ids — the second build
returns the matrix carrying id `"A"`, not the requested `"B"`. -/
theorem claim_C10_witness :
    (resolvePoints gArb false [ptA] = .ok (["A"], [coordA], [])) ∧
      (resolvePoints gArb false [ptB] = .ok (["B"], [coordA], [])) ∧
      (lookupCache [] ⟨[coordA].map round6c, none, "TRAFFIC_AWARE"⟩ = none) ∧
      (mA.ids = [ptA].map Pt.id ∧
        ∀ prov2 : Provider,
          buildMatrix gArb prov2 [(keyA, mA)] [ptB] none "TRAFFIC_AWARE" false =
            .ok (mA, [(keyA, mA)], ⟨[], 0⟩)) ∧
      mA.ids ≠ [ptB].map Pt.id :=
  ⟨rfl, rfl, rfl,
    @claim_C10 gArb provEmpty [] [ptA] [ptB] none "TRAFFIC_AWARE" false
      ["A"] ["B"] [coordA] [] [] mA [(keyA, mA)] ⟨[], 1⟩
      rfl rfl rfl buildA,
    by decide⟩

/-! ## Lemmas about the routing model -/

theorem feasibleSol_unpack {minutes : List (List Int)} {pairs : List (Nat × Nat)}
    {vc : Nat} {cap : Int} {depot n : Nat} {sol : Sol}
    (h : feasibleSol minutes pairs vc cap depot n sol = true) :
    sol.length = vc ∧
      (∀ r ∈ sol, routeOk (matGet minutes) (demandOf pairs) n cap depot r = true) ∧
      visitsOnce n depot sol = true ∧
      (∀ pd ∈ pairs, ∃ r ∈ sol, routePairOk r pd = true) ∧
      (∀ pd ∈ pairs, ∀ r ∈ sol, pathPrecOk r pd = true) := by
  unfold feasibleSol at h
  simp only [Bool.and_eq_true, List.all_eq_true, List.any_eq_true,
    beq_iff_eq] at h
  exact ⟨h.1.1.1.1, h.1.1.1.2, h.1.1.2, h.1.2, h.2⟩

theorem routeOk_unpack {mat : Nat → Nat → Int} {dem : Nat → Int} {n : Nat}
    {cap : Int} {depot : Nat} {r : VRoute}
    (h : routeOk mat dem n cap depot r = true) :
    2 ≤ r.stops.length ∧
      (∃ s0, r.stops.head? = some s0 ∧ s0.node = depot ∧ s0.t = 0 ∧ s0.load = 0) ∧
      (∃ sl, r.stops.getLast? = some sl ∧ sl.node = depot) ∧
      (∀ s ∈ r.stops, stopOk cap s = true) ∧
      chainOk mat dem r.stops = true ∧
      (∀ s ∈ interiorStops r, s.node ≠ depot ∧ s.node < n) := by
  unfold routeOk at h
  simp only [Bool.and_eq_true, decide_eq_true_eq, List.all_eq_true] at h
  obtain ⟨⟨⟨⟨⟨hlen, hhead⟩, hlast⟩, hall⟩, hchain⟩, hint⟩ := h
  refine ⟨hlen, ?_, ?_, hall, hchain, ?_⟩
  · cases hh : r.stops.head? with
    | none => rw [hh] at hhead; exact Bool.noConfusion hhead
    | some s0 =>
        rw [hh] at hhead
        have hh2 : ((s0.node == depot) && (s0.t == 0) && (s0.load == 0)) = true :=
          hhead
        simp only [Bool.and_eq_true, beq_iff_eq] at hh2
        exact ⟨s0, rfl, hh2.1.1, hh2.1.2, hh2.2⟩
  · cases hl : r.stops.getLast? with
    | none => rw [hl] at hlast; exact Bool.noConfusion hlast
    | some sl =>
        rw [hl] at hlast
        have hl2 : (sl.node == depot) = true := hlast
        exact ⟨sl, rfl, eq_of_beq hl2⟩
  · intro s hs
    have := hint s hs
    simp only [Bool.and_eq_true, bne_iff_ne, decide_eq_true_eq] at this
    exact this

theorem stopOk_unpack {cap : Int} {s : RStop} (h : stopOk cap s = true) :
    0 ≤ s.t ∧ s.t ≤ 1440 ∧ 0 ≤ s.load ∧ s.load ≤ cap := by
  unfold stopOk at h
  simp only [Bool.and_eq_true, decide_eq_true_eq] at h
  exact ⟨h.1.1.1, h.1.1.2, h.1.2, h.2⟩

theorem routePairOk_unpack {r : VRoute} {pd : Nat × Nat}
    (h : routePairOk r pd = true) :
    ∃ sp sd, r.stops.find? (fun s => s.node == pd.1) = some sp ∧
      r.stops.find? (fun s => s.node == pd.2) = some sd ∧ sp.t ≤ sd.t := by
  unfold routePairOk tOf at h
  cases h1 : r.stops.find? (fun s => s.node == pd.1) with
  | none => rw [h1] at h; exact Bool.noConfusion h
  | some sp =>
      cases h2 : r.stops.find? (fun s => s.node == pd.2) with
      | none => rw [h1, h2] at h; exact Bool.noConfusion h
      | some sd =>
          rw [h1, h2] at h
          exact ⟨sp, sd, rfl, rfl, of_decide_eq_true h⟩

theorem chainOk_step {mat : Nat → Nat → Int} {dem : Nat → Int} :
    ∀ {l : List RStop}, chainOk mat dem l = true →
      ∀ (k : Nat) (a b : RStop), l[k]? = some a → l[k + 1]? = some b →
        a.t + mat a.node b.node ≤ b.t ∧
          b.t ≤ a.t + mat a.node b.node + 30 ∧
          b.load = a.load + dem a.node := by
  intro l
  induction l with
  | nil => intro _ k a b ha _; simp at ha
  | cons x xs ih =>
      intro h k a b ha hb
      cases xs with
      | nil =>
          rw [List.getElem?_cons_succ] at hb
          simp at hb
      | cons y ys =>
          have hsplit : (decide (x.t + mat x.node y.node ≤ y.t)
                && decide (y.t ≤ x.t + mat x.node y.node + 30)
                && (y.load == x.load + dem x.node)
                && chainOk mat dem (y :: ys)) = true := h
          simp only [Bool.and_eq_true, decide_eq_true_eq, beq_iff_eq] at hsplit
          obtain ⟨⟨⟨h1, h2⟩, h3⟩, hrest⟩ := hsplit
          cases k with
          | zero =>
              rw [List.getElem?_cons_zero] at ha
              rw [List.getElem?_cons_succ, List.getElem?_cons_zero] at hb
              cases ha; cases hb
              exact ⟨h1, h2, h3⟩
          | succ k =>
              rw [List.getElem?_cons_succ] at ha
              rw [List.getElem?_cons_succ] at hb
              exact ih hrest k a b ha hb

theorem getElem?_some_lt {α : Type} {l : List α} {k : Nat} {a : α}
    (h : l[k]? = some a) : k < l.length := by
  by_contra hc
  rw [List.getElem?_eq_none (Nat.le_of_not_lt hc)] at h
  exact Option.noConfusion h

/-- Strict growth of the time cumul between two positions, given that
every arc strictly between them has positive transit. -/
theorem chain_strict {mat : Nat → Nat → Int} {dem : Nat → Int}
    {l : List RStop} (hchain : chainOk mat dem l = true) :
    ∀ (i j : Nat) (a b : RStop), i < j →
      (∀ (k : Nat) (c d : RStop), i ≤ k → k + 1 ≤ j →
        l[k]? = some c → l[k + 1]? = some d → 1 ≤ mat c.node d.node) →
      l[i]? = some a → l[j]? = some b → a.t < b.t := by
  intro i j
  induction j with
  | zero => intro a b hij _ _ _; omega
  | succ j ih =>
      intro a b hij hstep ha hb
      have hj1 : j + 1 < l.length := getElem?_some_lt hb
      have hj : j < l.length := by omega
      have hc : l[j]? = some l[j] := List.getElem?_eq_getElem hj
      rcases Nat.lt_succ_iff_lt_or_eq.mp hij with hlt | heq
      · have h1 : a.t < l[j].t := by
          refine ih a l[j] hlt ?_ ha hc
          intro k c d hk1 hk2 hkc hkd
          exact hstep k c d hk1 (by omega) hkc hkd
        have hstep2 := chainOk_step hchain j l[j] b hc hb
        have hpos := hstep j l[j] b (by omega) (le_refl _) hc hb
        omega
      · have ha' : l[j]? = some a := heq ▸ ha
        have hstep2 := chainOk_step hchain j a b ha' hb
        have hpos := hstep j a b (by omega) (le_refl _) ha' hb
        omega

theorem findIdx_split {α : Type} (pred : α → Bool) :
    ∀ (as : List α) (b : α) (bs : List α),
      (∀ a ∈ as, pred a = false) → pred b = true →
      (as ++ b :: bs).findIdx pred = as.length := by
  intro as
  induction as with
  | nil => intro b bs _ hb; simp [List.findIdx_cons, hb]
  | cons a as ih =>
      intro b bs hpre hb
      have ha : pred a = false := hpre a (List.mem_cons_self a as)
      simp only [List.cons_append, List.findIdx_cons, ha, cond_false,
        List.length_cons]
      rw [ih b bs (fun y hy => hpre y (List.mem_cons_of_mem a hy)) hb]

theorem find?_node_pos {l : List RStop} {x : Nat} {s : RStop}
    (h : l.find? (fun s => s.node == x) = some s) :
    s.node = x ∧ ∃ i, i < l.length ∧ l[i]? = some s ∧
      l.findIdx (fun s => s.node == x) = i := by
  rw [List.find?_eq_some] at h
  obtain ⟨hpred, as, bs, hsplit, hpre⟩ := h
  have hsx : s.node = x := by simpa using hpred
  subst hsplit
  refine ⟨hsx, as.length, ?_, getElem?_append_cons_length as s bs, ?_⟩
  · simp only [List.length_append, List.length_cons]
    omega
  · refine findIdx_split _ as s bs ?_ hpred
    intro a ha
    have := hpre a ha
    simpa using this

theorem pathPrecOk_lt {r : VRoute} {pd : Nat × Nat} {sp sd : RStop}
    (hpp : pathPrecOk r pd = true)
    (hfp : r.stops.find? (fun s => s.node == pd.1) = some sp)
    (hfd : r.stops.find? (fun s => s.node == pd.2) = some sd) :
    r.stops.findIdx (fun s => s.node == pd.1) <
      r.stops.findIdx (fun s => s.node == pd.2) := by
  unfold pathPrecOk at hpp
  have hp1 : r.stops.any (fun s => s.node == pd.1) = true := by
    rw [List.any_eq_true]
    refine ⟨sp, List.mem_of_find?_eq_some hfp, ?_⟩
    have hps := List.find?_some hfp
    exact hps
  have hp2 : r.stops.any (fun s => s.node == pd.2) = true := by
    rw [List.any_eq_true]
    refine ⟨sd, List.mem_of_find?_eq_some hfd, ?_⟩
    have hds := List.find?_some hfd
    exact hds
  rw [hp1, hp2] at hpp
  simpa using hpp

theorem find_pos_bounds {l : List RStop} {x : Nat} {s : RStop} {i : Nat}
    {depot : Nat} (hx : x ≠ depot)
    (hhead : ∃ s0, l.head? = some s0 ∧ s0.node = depot)
    (hlast : ∃ sl, l.getLast? = some sl ∧ sl.node = depot)
    (hi : l[i]? = some s) (hsx : s.node = x) :
    1 ≤ i ∧ i + 1 < l.length := by
  obtain ⟨s0, hs0, hs0d⟩ := hhead
  obtain ⟨sl, hsl, hsld⟩ := hlast
  have hilt : i < l.length := getElem?_some_lt hi
  rw [List.head?_eq_getElem?] at hs0
  rw [List.getLast?_eq_getElem?] at hsl
  constructor
  · rcases Nat.eq_zero_or_pos i with h0 | h1
    · exfalso
      subst h0
      rw [hi] at hs0
      cases hs0
      exact hx (hsx ▸ hs0d ▸ rfl)
    · exact h1
  · rcases Nat.lt_or_ge (i + 1) l.length with hlt | hge
    · exact hlt
    · exfalso
      have : i = l.length - 1 := by omega
      subst this
      rw [hi] at hsl
      cases hsl
      exact hx (hsx ▸ hsld ▸ rfl)

theorem visitsOnce_count {n depot : Nat} {sol : Sol} {x : Nat}
    (h : visitsOnce n depot sol = true) (hx : x < n) (hxd : x ≠ depot) :
    (allInterior sol).count x = 1 := by
  unfold visitsOnce at h
  rw [List.all_eq_true] at h
  have hh := h x (List.mem_range.mpr hx)
  simp only [Bool.or_eq_true, beq_iff_eq] at hh
  rcases hh with h1 | h2
  · exact absurd h1 hxd
  · exact h2

theorem interior_nodup {sol : Sol} {r : VRoute} {n depot : Nat}
    (hr : r ∈ sol) (hvo : visitsOnce n depot sol = true)
    (hint : ∀ s ∈ interiorStops r, s.node ≠ depot ∧ s.node < n) :
    ((interiorStops r).map (fun s => s.node)).Nodup := by
  rw [List.nodup_iff_count_le_one]
  intro x
  by_cases hx : x ∈ (interiorStops r).map (fun s => s.node)
  · obtain ⟨s, hs, hsx⟩ := List.mem_map.mp hx
    obtain ⟨hd, hn⟩ := hint s hs
    obtain ⟨u, v, hsol⟩ := List.append_of_mem hr
    have hcount : (allInterior sol).count x = 1 := by
      refine visitsOnce_count hvo ?_ ?_
      · rw [← hsx]; exact hn
      · rw [← hsx]; exact hd
    have hdec : allInterior sol =
        allInterior u ++ ((interiorStops r).map (fun s => s.node) ++ allInterior v) := by
      rw [hsol]
      simp [allInterior, List.flatMap_append, List.flatMap_cons]
    rw [hdec, List.count_append, List.count_append] at hcount
    omega
  · rw [List.count_eq_zero_of_not_mem hx]
    omega

theorem stops_interior_getElem {l : List RStop} {k : Nat}
    (h1 : 1 ≤ k) (h2 : k + 1 < l.length) :
    ((l.drop 1).dropLast)[k - 1]? = l[k]? := by
  have hlen : (l.drop 1).length = l.length - 1 := List.length_drop 1 l
  have hk1 : k - 1 < (l.drop 1).length - 1 := by omega
  rw [List.dropLast_eq_take]
  rw [List.getElem?_take_of_lt hk1]
  rw [List.getElem?_drop]
  congr 1
  omega

/-- Along a feasible route whose interior nodes are valid and pairwise
distinct, the time cumul strictly grows between two interior positions
when every travel time between distinct stops is at least one minute. -/
theorem route_pos_strict {mat : Nat → Nat → Int} {dem : Nat → Int}
    {l : List RStop} {n depot : Nat}
    (hchain : chainOk mat dem l = true)
    (hnodup : (((l.drop 1).dropLast).map (fun s => s.node)).Nodup)
    (hint : ∀ s ∈ (l.drop 1).dropLast, s.node ≠ depot ∧ s.node < n)
    (hpos : ∀ a b : Nat, a < n → b < n → a ≠ b → 1 ≤ mat a b)
    {i j : Nat} {a b : RStop}
    (hi1 : 1 ≤ i) (hj2 : j + 1 < l.length) (hij : i < j)
    (ha : l[i]? = some a) (hb : l[j]? = some b) :
    a.t < b.t := by
  refine chain_strict hchain i j a b hij ?_ ha hb
  intro k c d hk1 hk2 hkc hkd
  have hkk : 1 ≤ k := le_trans hi1 hk1
  have hkl : k + 1 + 1 ≤ l.length := by omega
  have hic : ((l.drop 1).dropLast)[k - 1]? = some c := by
    rw [stops_interior_getElem hkk (by omega)]
    exact hkc
  have hid : ((l.drop 1).dropLast)[k + 1 - 1]? = some d := by
    rw [stops_interior_getElem (by omega) (by omega)]
    exact hkd
  have hcmem : c ∈ (l.drop 1).dropLast := List.getElem?_mem hic
  have hdmem : d ∈ (l.drop 1).dropLast := List.getElem?_mem hid
  obtain ⟨hcd, hcn⟩ := hint c hcmem
  obtain ⟨hdd, hdn⟩ := hint d hdmem
  refine hpos c.node d.node hcn hdn ?_
  intro hcontra
  have hmc : (((l.drop 1).dropLast).map (fun s => s.node))[k - 1]? = some c.node := by
    rw [List.getElem?_map, hic]; rfl
  have hmd : (((l.drop 1).dropLast).map (fun s => s.node))[k + 1 - 1]? = some d.node := by
    rw [List.getElem?_map, hid]; rfl
  rw [hcontra] at hmc
  have hlt1 : k - 1 < (((l.drop 1).dropLast).map (fun s => s.node)).length :=
    getElem?_some_lt hmc
  have hlt2 : k + 1 - 1 < (((l.drop 1).dropLast).map (fun s => s.node)).length :=
    getElem?_some_lt hmd
  have hgc : (((l.drop 1).dropLast).map (fun s => s.node))[k - 1] = d.node := by
    have := List.getElem?_eq_getElem hlt1
    rw [this] at hmc
    exact Option.some.inj hmc
  have hgd : (((l.drop 1).dropLast).map (fun s => s.node))[k + 1 - 1] = d.node := by
    have := List.getElem?_eq_getElem hlt2
    rw [this] at hmd
    exact Option.some.inj hmd
  have heq : k - 1 = k + 1 - 1 :=
    (List.Nodup.getElem_inj_iff hnodup).mp (hgc.trans hgd.symm)
  omega

theorem extract_getElem (ids : List String) (sol : Sol) (v : Nat) :
    (extractRoutes ids sol)[v]? = (sol[v]?).map (fun r =>
      (⟨v, r.stops.map (fun s => ⟨ids.getD s.node "", s.load, s.t⟩),
        ((r.stops.getLast?.map (fun s => s.t)).getD 0),
        ((r.stops.dropLast.map (fun s => s.load)).foldl max 0)⟩ : RouteOut)) := by
  unfold extractRoutes
  rw [List.getElem?_map, List.getElem?_enum]
  cases sol[v]? <;> rfl

theorem extract_mem {ids : List String} {sol : Sol} {ro : RouteOut}
    (h : ro ∈ extractRoutes ids sol) :
    ∃ v r, sol[v]? = some r ∧
      ro = ⟨v, r.stops.map (fun s => ⟨ids.getD s.node "", s.load, s.t⟩),
        ((r.stops.getLast?.map (fun s => s.t)).getD 0),
        ((r.stops.dropLast.map (fun s => s.load)).foldl max 0)⟩ := by
  unfold extractRoutes at h
  obtain ⟨vr, hvr, hro⟩ := List.mem_map.mp h
  exact ⟨vr.1, vr.2, List.mem_enum_iff_getElem?.mp hvr, hro.symm⟩

/-! ## Claims C1 to C3 (routing engine) -/

/-- C2: in every solve output produced from a feasible solution, the
cumulative load reported at every stop of every route lies in
`[0, vehicleCapacity]`, and each route's `max_load` lies in
`[0, vehicleCapacity]` as well. -/
theorem claim_C2 {oracle : Option Sol} {ids : List String}
    {minutes : List (List Int)} {pairs : List (Nat × Nat)} {vc : Nat}
    {cap : Int} {depot : Nat} {out : List RouteOut}
    (hsound : ∀ s, oracle = some s →
      feasibleSol minutes pairs vc cap depot ids.length s = true)
    (hok : solve_routes oracle ids minutes pairs vc cap depot = .ok out) :
    ∀ ro ∈ out,
      (∀ so ∈ ro.stops, 0 ≤ so.load_at_stop ∧ so.load_at_stop ≤ cap) ∧
        0 ≤ ro.max_load ∧ ro.max_load ≤ cap := by
  cases oracle with
  | none => exact Except.noConfusion hok
  | some sol =>
      have hout : out = extractRoutes ids sol := by
        unfold solve_routes at hok
        cases hok
        rfl
      subst hout
      have hfeas := hsound sol rfl
      obtain ⟨_, hall, _, _, _⟩ := feasibleSol_unpack hfeas
      intro ro hro
      obtain ⟨v, r, hvr, hroeq⟩ := extract_mem hro
      have hrmem : r ∈ sol := List.getElem?_mem hvr
      obtain ⟨hlen, hhead, _, hallstop, _, _⟩ := routeOk_unpack (hall r hrmem)
      have hcap : 0 ≤ cap := by
        obtain ⟨s0, hs0, _, _, hs0load⟩ := hhead
        have hs0mem : s0 ∈ r.stops := by
          rw [List.head?_eq_getElem?] at hs0
          exact List.getElem?_mem hs0
        have := stopOk_unpack (hallstop s0 hs0mem)
        omega
      subst hroeq
      refine ⟨?_, ?_, ?_⟩
      · intro so hso
        obtain ⟨s, hs, hseq⟩ := List.mem_map.mp hso
        have hb := stopOk_unpack (hallstop s hs)
        rw [← hseq]
        exact ⟨hb.2.2.1, hb.2.2.2⟩
      · exact le_foldl_max _ 0
      · refine foldl_max_le _ 0 cap hcap ?_
        intro w hw
        obtain ⟨s, hs, hseq⟩ := List.mem_map.mp hw
        have hsmem : s ∈ r.stops := (List.dropLast_sublist r.stops).subset hs
        have hb := stopOk_unpack (hallstop s hsmem)
        rw [← hseq]
        exact hb.2.2.2

/-- C1: for every feasible solve, each pickup/drop pair is served on the
same vehicle's route, with the pickup's position in that route strictly
preceding the drop's position, and the cumulative time at the pickup not
exceeding the cumulative time at the drop.  The strict position order
comes from the path precedence OR-Tools installs for
`AddPickupAndDelivery` pairs; the time inequality from the explicit
`Cumul(p) <= Cumul(d)` constraint. -/
theorem claim_C1 {oracle : Option Sol} {ids : List String}
    {minutes : List (List Int)} {pairs : List (Nat × Nat)} {vc : Nat}
    {cap : Int} {depot : Nat} {out : List RouteOut} {p d : Nat}
    (hsound : ∀ s, oracle = some s →
      feasibleSol minutes pairs vc cap depot ids.length s = true)
    (hok : solve_routes oracle ids minutes pairs vc cap depot = .ok out)
    (hmem : (p, d) ∈ pairs) :
    ∃ (v : Nat) (ro : RouteOut) (i j : Nat) (si sj : StopOut),
      out[v]? = some ro ∧ i < j ∧
      ro.stops[i]? = some si ∧ ro.stops[j]? = some sj ∧
      si.stop_id = ids.getD p "" ∧ sj.stop_id = ids.getD d "" ∧
      si.time_min ≤ sj.time_min := by
  cases oracle with
  | none => exact Except.noConfusion hok
  | some sol =>
      have hout : out = extractRoutes ids sol := by
        unfold solve_routes at hok
        cases hok
        rfl
      subst hout
      have hfeas := hsound sol rfl
      obtain ⟨_, hall, _, hpairs, hprec⟩ := feasibleSol_unpack hfeas
      obtain ⟨r, hr, hpo⟩ := hpairs (p, d) hmem
      obtain ⟨sp, sd, hfp, hfd, htle⟩ := routePairOk_unpack hpo
      obtain ⟨hspn, i, hilt, hieq, hidx⟩ := find?_node_pos hfp
      obtain ⟨hsdn, j, hjlt, hjeq, hjdx⟩ := find?_node_pos hfd
      have hspn2 : sp.node = p := hspn
      have hsdn2 : sd.node = d := hsdn
      have hij : i < j := by
        have hlt := pathPrecOk_lt (hprec (p, d) hmem r hr) hfp hfd
        rw [hidx, hjdx] at hlt
        exact hlt
      obtain ⟨v, hveq⟩ := List.mem_iff_getElem?.mp hr
      refine ⟨v,
        ⟨v, r.stops.map (fun s => (⟨ids.getD s.node "", s.load, s.t⟩ : StopOut)),
          ((r.stops.getLast?.map (fun s => s.t)).getD 0),
          ((r.stops.dropLast.map (fun s => s.load)).foldl max 0)⟩, i, j,
        ⟨ids.getD p "", sp.load, sp.t⟩, ⟨ids.getD d "", sd.load, sd.t⟩, ?_, hij,
        ?_, ?_, rfl, rfl, htle⟩
      · rw [extract_getElem, hveq]
        rfl
      · show (r.stops.map (fun s => (⟨ids.getD s.node "", s.load, s.t⟩ : StopOut)))[i]? =
          some ⟨ids.getD p "", sp.load, sp.t⟩
        rw [List.getElem?_map, hieq, ← hspn2]
        rfl
      · show (r.stops.map (fun s => (⟨ids.getD s.node "", s.load, s.t⟩ : StopOut)))[j]? =
          some ⟨ids.getD d "", sd.load, sd.t⟩
        rw [List.getElem?_map, hjeq, ← hsdn2]
        rfl

/-- No feasible solution exists when the capacity is zero and some node
carries demand `+1`: the stop after that pickup would have load `1 > 0`. -/
theorem cap_zero_infeasible {minutes : List (List Int)}
    {pairs : List (Nat × Nat)} {vc : Nat} {depot n : Nat} {p d : Nat}
    (hmem : (p, d) ∈ pairs) (hdem : demandOf pairs p = 1) (hp : p ≠ depot) :
    ∀ sol : Sol, feasibleSol minutes pairs vc 0 depot n sol ≠ true := by
  intro sol hfeas
  obtain ⟨_, hall, _, hpairs, _⟩ := feasibleSol_unpack hfeas
  obtain ⟨r, hr, hpo⟩ := hpairs (p, d) hmem
  obtain ⟨sp, _, hfp, _, _⟩ := routePairOk_unpack hpo
  obtain ⟨hlen, hhead, hlast, hallstop, hchain, _⟩ := routeOk_unpack (hall r hr)
  have hhead' : ∃ s0, r.stops.head? = some s0 ∧ s0.node = depot := by
    obtain ⟨s0, h1, h2, _, _⟩ := hhead
    exact ⟨s0, h1, h2⟩
  obtain ⟨hspn, i, hilt, hieq, _⟩ := find?_node_pos hfp
  obtain ⟨_, hi2⟩ := find_pos_bounds hp hhead' hlast hieq hspn
  have hblt : i + 1 < r.stops.length := hi2
  have hb : r.stops[i + 1]? = some r.stops[i + 1] := List.getElem?_eq_getElem hblt
  have hstep := chainOk_step hchain i sp (r.stops[i + 1]) hieq hb
  have hload : (r.stops[i + 1]).load = sp.load + 1 := by
    rw [hstep.2.2, hspn, hdem]
  have hsp_ok := stopOk_unpack (hallstop sp (List.getElem?_mem hieq))
  have hb_ok := stopOk_unpack (hallstop (r.stops[i + 1]) (List.getElem?_mem hb))
  omega

/-- C3: with `vehicleCapacity = 0` and at least one well-formed
pickup/drop pair, the model is infeasible, so any sound search returns
nothing and `solve_routes` fails with the no-feasible-route error (status
500, distinct from the 502 used for upstream/provider failures), returning
no plan at all. -/
theorem claim_C3 {oracle : Option Sol} {ids : List String}
    {minutes : List (List Int)} {pairs : List (Nat × Nat)} {vc : Nat}
    {depot : Nat} {p d : Nat}
    (hsound : ∀ s, oracle = some s →
      feasibleSol minutes pairs vc 0 depot ids.length s = true)
    (hmem : (p, d) ∈ pairs) (hdem : demandOf pairs p = 1) (hp : p ≠ depot) :
    solve_routes oracle ids minutes pairs vc 0 depot = .error noFeasibleErr ∧
      noFeasibleErr.status ≠ upstreamStatus := by
  constructor
  · cases oracle with
    | none => rfl
    | some s =>
        exact absurd (hsound s rfl) (cap_zero_infeasible hmem hdem hp s)
  · decide

/-! ## Concrete routing instances -/

/-- Stop ids with one depot and two pickup/drop pairs. -/
def ids5 : List String := ["DEPOT", "P1", "D1", "P2", "D2"]

/-- An all-zero 5-by-5 minutes matrix (every travel time zero). -/
def minutes5 : List (List Int) := List.replicate 5 (List.replicate 5 0)

/-- A 5-by-5 minutes matrix with unit travel time between distinct stops. -/
def minutesPos : List (List Int) :=
  [[0, 1, 1, 1, 1], [1, 0, 1, 1, 1], [1, 1, 0, 1, 1],
   [1, 1, 1, 0, 1], [1, 1, 1, 1, 0]]

/-- The pairs: pickup 1 to drop 2, pickup 3 to drop 4. -/
def pairs5 : List (Nat × Nat) := [(1, 2), (3, 4)]

/-- A feasible solution of the zero-travel-time model: one route serving
both pairs in pickup-first order, all time cumuls zero. -/
def sol5 : Sol :=
  [⟨[⟨0, 0, 0⟩, ⟨1, 0, 0⟩, ⟨2, 0, 1⟩, ⟨3, 0, 0⟩, ⟨4, 0, 1⟩, ⟨0, 0, 0⟩]⟩]

/-- A feasible solution of the positive-travel-time model, in pickup-first
order with strictly increasing cumulative times. -/
def solPos : Sol :=
  [⟨[⟨0, 0, 0⟩, ⟨1, 1, 0⟩, ⟨2, 2, 1⟩, ⟨3, 3, 0⟩, ⟨4, 4, 1⟩, ⟨0, 5, 0⟩]⟩]

/-- Witness for C1 under a positive travel-time matrix. -/
theorem claim_C1_witness :
    (∀ s, (some solPos : Option Sol) = some s →
        feasibleSol minutesPos pairs5 1 2 0 ids5.length s = true) ∧
      ((1, 2) ∈ pairs5) ∧
      (∃ (v : Nat) (ro : RouteOut) (i j : Nat) (si sj : StopOut),
        (extractRoutes ids5 solPos)[v]? = some ro ∧ i < j ∧
        ro.stops[i]? = some si ∧ ro.stops[j]? = some sj ∧
        si.stop_id = ids5.getD 1 "" ∧ sj.stop_id = ids5.getD 2 "" ∧
        si.time_min ≤ sj.time_min) := by
  have hs : ∀ s, (some solPos : Option Sol) = some s →
      feasibleSol minutesPos pairs5 1 2 0 ids5.length s = true := by
    intro s h
    cases h
    decide
  refine ⟨hs, by decide, ?_⟩
  exact @claim_C1 (some solPos) ids5 minutesPos pairs5 1 2 0
    (extractRoutes ids5 solPos) 1 2 hs rfl (by decide)

/-- Witness for C2 at the concrete zero-matrix solve. -/
theorem claim_C2_witness :
    (∀ s, (some sol5 : Option Sol) = some s →
        feasibleSol minutes5 pairs5 1 2 0 ids5.length s = true) ∧
      ∀ ro ∈ extractRoutes ids5 sol5,
        (∀ so ∈ ro.stops, 0 ≤ so.load_at_stop ∧ so.load_at_stop ≤ 2) ∧
          0 ≤ ro.max_load ∧ ro.max_load ≤ 2 := by
  have hs : ∀ s, (some sol5 : Option Sol) = some s →
      feasibleSol minutes5 pairs5 1 2 0 ids5.length s = true := by
    intro s h
    cases h
    decide
  exact ⟨hs, claim_C2 hs rfl⟩

/-- Witness for C3: capacity zero with one pickup/drop pair forces the
infeasibility error. -/
theorem claim_C3_witness :
    (∀ s, (none : Option Sol) = some s →
        feasibleSol minutes5 pairs5 1 0 0 ids5.length s = true) ∧
      ((1, 2) ∈ pairs5) ∧ (demandOf pairs5 1 = 1) ∧ ((1 : Nat) ≠ 0) ∧
      (solve_routes none ids5 minutes5 pairs5 1 0 0 = .error noFeasibleErr ∧
        noFeasibleErr.status ≠ upstreamStatus) := by
  have hs : ∀ s, (none : Option Sol) = some s →
      feasibleSol minutes5 pairs5 1 0 0 ids5.length s = true :=
    fun s h => Option.noConfusion h
  refine ⟨hs, by decide, by decide, by decide, ?_⟩
  exact @claim_C3 none ids5 minutes5 pairs5 1 0 1 2 hs (by decide) (by decide)
    (by decide)

end OrToolsTest
